import Mathlib

/-!
Verification development for the JIGCOIN promo bot (autoposting scheduler and
eligibility engine).  The repository holds two revisions of the same bot:
the current entry point (src/index.js) and an earlier revision
(src/unnamed/part_000).  Definitions below are shallow embeddings of the
functions of those files; the earlier revision's variants live in the
namespace V2.  Times are modelled in milliseconds as naturals, JavaScript
numbers used as weights or random draws are modelled as rationals, and the
Supabase row for a promo zone is modelled by the structure Zone (a JS
null/undefined field is an Option none, a stored numeric field is some n).
-/

namespace JigPromo

/-- Deployment configuration derived from environment variables.
GLOBAL_MIN_GAP_SECONDS, DEFAULT_MIN_GAP_MINUTES, DEFAULT_DAILY_CAP,
AUTO_DISABLE_AFTER and QUIET_HOURS of src/index.js. -/
structure Config where
  globalMinGapSeconds : Nat
  defaultMinGapMinutes : Nat
  defaultDailyCap : Nat
  autoDisableAfter : Nat
  quietHours : String
deriving DecidableEq, Repr

/-- A promo_zones row as used by src/index.js (fields last_posted_at,
last_error, fail_count, min_gap_minutes, daily_cap, is_enabled).
A null or missing numeric column is none; fail_count models
Number(zone.fail_count || 0). -/
structure Zone where
  id : Nat
  telegram_chat_id : Nat
  is_enabled : Bool
  min_gap_minutes : Option Nat
  daily_cap : Option Nat
  last_posted_at : Option Nat
  fail_count : Nat
  last_error : Option String
deriving DecidableEq, Repr

/-- A message template as produced by fetchEnabledTemplates in src/index.js:
id, body and a weight; weight none models a row where the weight column is
absent (JS undefined, so the nullish default 1 applies). -/
structure Template where
  id : String
  weight : Option ℚ
  body : String
deriving DecidableEq, Repr

/-- Effective per-zone minimum gap in minutes, from src/index.js line 277:
Math.max(1, Number(zone.min_gap_minutes || DEFAULT_MIN_GAP_MINUTES)).
A stored 0 and a missing value are both JS-falsy, so both fall back to the
configured default before the clamp to at least 1. -/
def effMinGap (cfg : Config) (z : Zone) : Nat :=
  max 1 (match z.min_gap_minutes with
         | none => cfg.defaultMinGapMinutes
         | some 0 => cfg.defaultMinGapMinutes
         | some n => n)

/-- Effective per-zone daily cap, from src/index.js line 284:
Math.max(1, Number(zone.daily_cap || DEFAULT_DAILY_CAP)). -/
def effDailyCap (cfg : Config) (z : Zone) : Nat :=
  max 1 (match z.daily_cap with
         | none => cfg.defaultDailyCap
         | some 0 => cfg.defaultDailyCap
         | some n => n)

/-- Global throttle check of src/index.js line 274: the post is allowed only
when now - lastGlobalPostAt >= GLOBAL_MIN_GAP_SECONDS * 1000.  Natural
subtraction truncates at 0, which agrees with the JS comparison because the
gap is positive. -/
def globalGapOk (cfg : Config) (now lastGlobal : Nat) : Bool :=
  decide (cfg.globalMinGapSeconds * 1000 ≤ now - lastGlobal)

/-- Per-zone cooldown check of src/index.js lines 277-281: skip when a last
post exists and now - last < minGap * 60 * 1000. -/
def zoneGapOk (cfg : Config) (now : Nat) (z : Zone) : Bool :=
  match z.last_posted_at with
  | none => true
  | some last => decide (effMinGap cfg z * 60000 ≤ now - last)

/-- Daily cap check of src/index.js lines 284-286: skip when todayCount is
at least the effective cap. -/
def capOk (cfg : Config) (todayCount : Nat) (z : Zone) : Bool :=
  decide (todayCount < effDailyCap cfg z)

/-- A send attempt is made to the zone on this cycle only when all gate
checks pass.  The is_enabled conjunct models the fetchZones query filter
.eq(is_enabled, true) of src/index.js lines 200-208; the remaining three
conjuncts are the early returns of postToZone (src/index.js lines 272-286). -/
def sendEligible (cfg : Config) (now lastGlobal todayCount : Nat) (z : Zone) : Bool :=
  z.is_enabled && globalGapOk cfg now lastGlobal && zoneGapOk cfg now z
    && capOk cfg todayCount z

/-- Zone state written on a successful send by updateZonePosted
(src/index.js lines 224-226): set last_posted_at to the current time and
clear last_error.  No other column is written on the success path. -/
def applySuccess (z : Zone) (now : Nat) : Zone :=
  { z with last_posted_at := some now, last_error := none }

/-- Zone state written on a failed send by the catch branch of postToZone
(src/index.js lines 315-339): store the error message truncated to 500
characters in last_error, increment fail_count (incrementFailCount reads the
stored counter and writes it back plus one), and, when the AUTO_DISABLE_AFTER
threshold is positive and the incremented snapshot counter reaches it, set
is_enabled to false. -/
def applyFailure (cfg : Config) (msg : String) (z : Zone) : Zone :=
  let z1 := { z with last_error := some (msg.take 500), fail_count := z.fail_count + 1 }
  if 0 < cfg.autoDisableAfter ∧ cfg.autoDisableAfter ≤ z.fail_count + 1 then
    { z1 with is_enabled := false }
  else z1

/-- JS whitespace as matched by the regex class in the QUIET_HOURS pattern. -/
def isJsSpace (c : Char) : Bool :=
  c == ' ' || c == '\t' || c == '\n' || c == '\r'

/-- Numeric value of a digit string, as Number applied to a regex group of
digits in src/index.js lines 73-74. -/
def digitsToNat (l : List Char) : Nat :=
  l.foldl (fun n c => n * 10 + (c.toNat - 48)) 0

/-- Parse of the anchored QUIET_HOURS regex of src/index.js line 71,
the pattern being one or two digits, optional spaces, a dash, optional
spaces, then one or two digits.  A greedy bounded digit group followed by
the mandatory dash matches exactly when the maximal digit run has length one
or two, so taking the full run and checking its length is equivalent. -/
def parseQuietHours (s : String) : Option (Nat × Nat) :=
  let cs := s.data
  let d1 := cs.takeWhile Char.isDigit
  let r1 := cs.dropWhile Char.isDigit
  if d1.length = 0 ∨ 2 < d1.length then none
  else
    match r1.dropWhile isJsSpace with
    | '-' :: r3 =>
      let r4 := r3.dropWhile isJsSpace
      let d2 := r4.takeWhile Char.isDigit
      let r5 := r4.dropWhile Char.isDigit
      if d2.length = 0 ∨ 2 < d2.length ∨ r5 ≠ [] then none
      else some (digitsToNat d1, digitsToNat d2)
    | _ => none

/-- inQuietHours of src/index.js lines 69-80, with the current UTC hour
passed explicitly.  An empty or unparseable QUIET_HOURS string yields false;
start <= end is the plain window, start > end wraps midnight. -/
def inQuietHours (qh : String) (h : Nat) : Bool :=
  if qh.isEmpty then false
  else
    match parseQuietHours qh with
    | none => false
    | some (s, e) =>
      if s ≤ e then decide (s ≤ h) && decide (h < e)
      else decide (s ≤ h) || decide (h < e)

/-- Effective weight of a template in pickWeighted, src/index.js line 110:
Math.max(0, Number(it.weight ?? 1) || 0).  A missing weight defaults to 1
through the nullish coalescing, an explicit 0 stays 0, a negative weight is
clamped to 0. -/
def effWeight (t : Template) : ℚ := max 0 (t.weight.getD 1)

/-- The cumulative-subtraction loop of pickWeighted, src/index.js lines
113-118: subtract each weight from the draw and return the first item whose
subtraction makes it nonpositive; after the loop the last item is returned. -/
def pickLoop : List (Template × ℚ) → ℚ → Option Template
  | [], _ => none
  | [(t, _)], _ => some t
  | (t, w) :: p :: rest, r => if r - w ≤ 0 then some t else pickLoop (p :: rest) (r - w)

/-- pickWeighted of src/index.js lines 107-119, with the Math.random() draw
passed explicitly as a rational r (intended range 0 <= r < 1).  When the
total weight is nonpositive the item at index floor(r * length) is returned;
otherwise the cumulative loop runs on r * total. -/
def pickWeighted (items : List Template) (r : ℚ) : Option Template :=
  if items.isEmpty then none
  else
    let total := (items.map effWeight).sum
    if total ≤ 0 then items.get? (Int.toNat ⌊r * items.length⌋)
    else pickLoop (items.map fun t => (t, effWeight t)) (r * total)

/-- External inputs consumed by one promo cycle acting on one candidate
zone: the current UTC hour and millisecond time, the count of today's
successful posts read from promo_posts, the fetched template list, the
Math.random() draw used by pickWeighted, whether the Telegram send call
succeeds, and the error text it reports when it fails. -/
structure CycleEnv where
  hour : Nat
  now : Nat
  todayCount : Nat
  templates : List Template
  rand : ℚ
  sendOk : Bool
  errMsg : String
deriving DecidableEq, Repr

/-- postToZone of src/index.js lines 267-340 as a state transition on the
pair (lastGlobalPostAt, zone): when every gate passes and a template is
picked, a send is attempted; on success updateZonePosted runs and
lastGlobalPostAt is set to now, on failure the failure path runs and the
global timestamp is left unchanged.  The returned boolean reports whether a
message was sent successfully. -/
def postToZone (cfg : Config) (st : Nat × Zone) (e : CycleEnv) : (Nat × Zone) × Bool :=
  let (lastGlobal, z) := st
  if sendEligible cfg e.now lastGlobal e.todayCount z then
    match pickWeighted e.templates e.rand with
    | none => ((lastGlobal, z), false)
    | some _ =>
      if e.sendOk then ((e.now, applySuccess z e.now), true)
      else ((lastGlobal, applyFailure cfg e.errMsg z), false)
  else ((lastGlobal, z), false)

/-- promoCycle of src/index.js lines 342-357 restricted to the single
candidate zone the shuffled loop processes: return immediately during quiet
hours, otherwise run postToZone once. -/
def promoCycle (cfg : Config) (st : Nat × Zone) (e : CycleEnv) : (Nat × Zone) × Bool :=
  if inQuietHours cfg.quietHours e.hour then (st, false) else postToZone cfg st e

/-- Timestamps of the successful sends produced by a sequence of promo
cycles on one zone, starting from global-pacing state st. -/
def successTimes (cfg : Config) (st : Nat × Zone) : List CycleEnv → List Nat
  | [] => []
  | e :: rest =>
    let out := promoCycle cfg st e
    if out.2 then e.now :: successTimes cfg out.1 rest
    else successTimes cfg out.1 rest

/-- A row inserted into the promo_posts table by logPostAttempt of
src/index.js lines 235-265.  The full payload carries the zone and chat
linkage, the template, the deep link and the outcome; the minimal fallback
payload used after a failed insert carries only the zone, template and
outcome. -/
inductive PostRow where
  | full (zoneId chatId : Nat) (templateId deepLink status : String) (err : Option String)
  | minimal (zoneId : Nat) (templateId status : String) (err : Option String)
deriving DecidableEq, Repr

/-- Outcomes of the two possible promo_posts insert calls, as reported by
the Supabase client (it returns an error value instead of throwing). -/
structure DbEnv where
  firstInsertFails : Bool
  secondInsertFails : Bool
deriving DecidableEq, Repr

/-- logPostAttempt of src/index.js lines 235-265: insert the full payload
(error text truncated to 800 characters); when that insert reports an error,
log it to the console and synchronously insert a minimal fallback payload;
a failure of the fallback is only logged.  The function returns the new log
contents together with the list of insert calls made, and never throws, so
the caller always proceeds. -/
def logPostAttempt (env : DbEnv) (zoneId chatId : Nat) (templateId deepLink status : String)
    (err : Option String) (log : List PostRow) : List PostRow × List PostRow :=
  let row := PostRow.full zoneId chatId templateId deepLink status (err.map (String.take · 800))
  if env.firstInsertFails then
    let row2 := PostRow.minimal zoneId templateId status (err.map (String.take · 800))
    if env.secondInsertFails then (log, [row, row2]) else (log ++ [row2], [row, row2])
  else (log ++ [row], [row])

/-- The success branch of postToZone (src/index.js lines 295-314) with the
attempt log made explicit: after the Telegram send succeeds, logPostAttempt
runs with whatever insert outcomes the store produces, and then
updateZonePosted runs unconditionally.  Returns the new log and zone. -/
def recordSuccess (env : DbEnv) (z : Zone) (now : Nat) (templateId deepLink : String)
    (log : List PostRow) : List PostRow × Zone :=
  let out := logPostAttempt env z.id z.telegram_chat_id templateId deepLink "success" none log
  (out.1, applySuccess z now)

/-- Abstract state of the self-scheduling tick loop of the earlier
revision's startScheduler (src/unnamed/part_000 lines 504-520): how many
cycles are currently running, how many ticks were skipped by the
single-flight guard, how many cycles were started, whether a next tick is
armed, and whether the process was told to shut down. -/
structure SchedState where
  inflight : Nat
  skipped : Nat
  started : Nat
  timerArmed : Bool
  stopped : Bool
deriving DecidableEq, Repr

/-- Events observed by the scheduler loop: a timer firing, a running cycle
completing, and the external shutdown signal. -/
inductive SchedEv where
  | fire
  | finish
  | stop
deriving DecidableEq, Repr

/-- One scheduler transition, from the tick closure of startScheduler
(src/unnamed/part_000 lines 504-517): a firing tick first re-arms the next
timer, then returns at once if a cycle is in flight (the tick is skipped,
nothing is queued), otherwise starts the one cycle; a finishing cycle
clears the in-flight flag; the shutdown signal stops the process and with it
the pending timer. -/
def schedStep (s : SchedState) : SchedEv → SchedState
  | SchedEv.fire =>
    if s.stopped || !s.timerArmed then s
    else if 0 < s.inflight then { s with timerArmed := true, skipped := s.skipped + 1 }
    else { s with timerArmed := true, inflight := s.inflight + 1, started := s.started + 1 }
  | SchedEv.finish =>
    match s.inflight with
    | 0 => s
    | n + 1 => { s with inflight := n }
  | SchedEv.stop => { s with stopped := true, timerArmed := false }

/-- Scheduler state after a list of events. -/
def schedRun (s : SchedState) (evs : List SchedEv) : SchedState :=
  evs.foldl schedStep s

/-- Initial scheduler state: startScheduler calls tick() immediately, so a
tick is armed, no cycle runs yet. -/
def schedInit : SchedState :=
  { inflight := 0, skipped := 0, started := 0, timerArmed := true, stopped := false }

namespace V2

/-- Character class [a-zA-Z0-9_] of the sanitizing regex in buildDeepLink,
src/unnamed/part_000 line 151. -/
def isIdentChar (c : Char) : Bool :=
  ('a' ≤ c && c ≤ 'z') || ('A' ≤ c && c ≤ 'Z') || ('0' ≤ c && c ≤ '9') || c == '_'

/-- Digit character in base up to 36, as produced by Number.toString(36):
0-9 then lowercase a-z. -/
def digitB36 (n : Nat) : Char :=
  if n < 10 then Char.ofNat (48 + n) else Char.ofNat (87 + n)

/-- Fuel-bounded base-36 digit expansion, most significant digit first. -/
def toB36Aux : Nat → Nat → List Char
  | 0, _ => []
  | f + 1, n => if n < 36 then [digitB36 n] else toB36Aux f (n / 36) ++ [digitB36 (n % 36)]

/-- Number.toString(36) of a natural number: its base-36 digits, most
significant first, a single 0 digit for zero.  The fuel n + 1 always
suffices because the argument shrinks strictly at each step. -/
def toBase36 (n : Nat) : List Char := toB36Aux (n + 1) n

/-- Fuel-bounded base-10 digit expansion, most significant digit first. -/
def toB10Aux : Nat → Nat → List Char
  | 0, _ => []
  | f + 1, n => if n < 10 then [digitB36 n] else toB10Aux f (n / 10) ++ [digitB36 (n % 10)]

/-- Decimal string of a natural number, as the template literal renders the
numeric zone id. -/
def toBase10 (n : Nat) : List Char := toB10Aux (n + 1) n

/-- The template-id fragment of buildDeepLink, src/unnamed/part_000 line
151: String(templateId || 't') stripped of characters outside [a-zA-Z0-9_],
cut to 10 characters, and replaced by the single letter t when empty. -/
def tplIdChars (templateId : String) : List Char :=
  let base := if templateId.isEmpty then ['t'] else templateId.data
  let cleaned := (base.filter isIdentChar).take 10
  if cleaned.isEmpty then ['t'] else cleaned

/-- The time fragment of buildDeepLink, src/unnamed/part_000 line 152:
Date.now().toString(36).slice(-6), the last six base-36 digits of the
current millisecond time. -/
def tsSuffix (now : Nat) : List Char :=
  let l := toBase36 now
  l.drop (l.length - 6)

/-- The untruncated payload of buildDeepLink, src/unnamed/part_000 line 153,
before the final slice: the template literal p zoneId t tplId _ timestamp. -/
def rawPayloadChars (zoneId : Nat) (templateId : String) (now : Nat) : List Char :=
  'p' :: toBase10 zoneId ++ 't' :: tplIdChars templateId ++ '_' :: tsSuffix now

/-- The deep-link token of buildDeepLink, src/unnamed/part_000 line 153:
the payload sliced to at most 64 characters. -/
def payloadChars (zoneId : Nat) (templateId : String) (now : Nat) : List Char :=
  (rawPayloadChars zoneId templateId now).take 64

/-- buildDeepLink of src/unnamed/part_000 lines 149-156: the link base
followed by the token. -/
def buildDeepLink (base : String) (zoneId : Nat) (templateId : String) (now : Nat) : String :=
  base ++ String.mk (payloadChars zoneId templateId now)

/-- The last k base-36 digits of a number, most significant first, as plain
numbers: digit i of the list (counted from the right) is n / 36^i % 36.
Used to reason about the time suffix of the deep-link token. -/
def digitsM : Nat → Nat → List Nat
  | 0, _ => []
  | k + 1, n => (n / 36 ^ k % 36) :: digitsM k n

end V2

/-! Sample values used by witnesses and counterexamples. -/

/-- A sample configuration: 60 second global gap, 360 minute default gap,
default daily cap 3, auto-disable after 2 consecutive failures, no quiet
hours. -/
def cfgA : Config :=
  { globalMinGapSeconds := 60, defaultMinGapMinutes := 360, defaultDailyCap := 3
    autoDisableAfter := 2, quietHours := "" }

/-- A sample zone that has already failed three times. -/
def zSample : Zone :=
  { id := 1, telegram_chat_id := 10, is_enabled := true, min_gap_minutes := some 30
    daily_cap := some 2, last_posted_at := none, fail_count := 3, last_error := some "boom" }

/-- A sample enabled zone with one prior failure and no stored limits. -/
def zFresh : Zone :=
  { id := 2, telegram_chat_id := 20, is_enabled := true, min_gap_minutes := none
    daily_cap := none, last_posted_at := none, fail_count := 1, last_error := none }

/-- A template with explicit weight zero. -/
def tplA : Template := { id := "a", weight := some 0, body := "A {LINK}" }

/-- A template with weight one. -/
def tplB : Template := { id := "b", weight := some 1, body := "B {LINK}" }

/-- A sample cycle environment: midday, global timestamp long in the past,
no posts today, one enabled weight-1 template, a zero random draw, and a
Telegram send that succeeds. -/
def envA : CycleEnv :=
  { hour := 12, now := 1000000000, todayCount := 0, templates := [tplB]
    rand := 0, sendOk := true, errMsg := "" }

/-- The sample configuration with a malformed quiet-hours string (colons do
not match the HH-HH pattern). -/
def cfgBad : Config := { cfgA with quietHours := "23:00-07:00" }

/-- Helper: the auto-disable branch never changes fail_count, so applying
the failure path with threshold zero never touches is_enabled. -/
theorem applyFailure_enabled_of_thzero (cfg : Config) (h : cfg.autoDisableAfter = 0)
    (msg : String) (z : Zone) : (applyFailure cfg msg z).is_enabled = z.is_enabled := by
  unfold applyFailure
  rw [if_neg]
  intro hc
  omega

/-- C1 counterexample: updateZonePosted writes only last_posted_at and
last_error, so a successful send to a zone with fail_count 3 leaves
fail_count at 3, not 0, contradicting the claim that a successful send
resets failCount to 0. -/
theorem success_leaves_failCount : (applySuccess zSample 5000).fail_count ≠ 0 := by
  decide

/-- C1 (amended): a successful send sets last_posted_at to the send time and
clears last_error but leaves fail_count unchanged; the failure path always
sets fail_count to its predecessor plus one (so neither path, including the
auto-disable branch, ever resets fail_count to 0). -/
theorem success_clears_error_not_failCount (z : Zone) (now : Nat) (cfg : Config)
    (msg : String) :
    (applySuccess z now).last_error = none ∧
    (applySuccess z now).last_posted_at = some now ∧
    (applySuccess z now).fail_count = z.fail_count ∧
    (applyFailure cfg msg z).fail_count = z.fail_count + 1 := by
  refine ⟨rfl, rfl, rfl, ?_⟩
  unfold applyFailure
  split <;> rfl

/-- C2: a failed send stores the 500-character-truncated error text and
increments fail_count; with a positive threshold the zone is disabled
exactly from the cycle whose incremented counter reaches the threshold,
and with threshold 0 (unset) the failure path never changes is_enabled,
no matter how many failures accumulate. -/
theorem failure_escalation (cfg : Config) (msg : String) (z : Zone) (msgs : List String) :
    (applyFailure cfg msg z).last_error = some (msg.take 500) ∧
    (applyFailure cfg msg z).fail_count = z.fail_count + 1 ∧
    (0 < cfg.autoDisableAfter → cfg.autoDisableAfter ≤ z.fail_count + 1 →
      (applyFailure cfg msg z).is_enabled = false) ∧
    (0 < cfg.autoDisableAfter → z.fail_count + 1 < cfg.autoDisableAfter →
      (applyFailure cfg msg z).is_enabled = z.is_enabled) ∧
    (cfg.autoDisableAfter = 0 →
      (msgs.foldl (fun w m => applyFailure cfg m w) z).is_enabled = z.is_enabled) := by
  refine ⟨?_, ?_, ?_, ?_, ?_⟩
  · unfold applyFailure; split <;> rfl
  · unfold applyFailure; split <;> rfl
  · intro h1 h2
    unfold applyFailure
    rw [if_pos ⟨h1, h2⟩]
  · intro h1 h2
    unfold applyFailure
    rw [if_neg]
    intro hc
    omega
  · intro h0
    induction msgs generalizing z with
    | nil => rfl
    | cons m rest ih =>
      simp only [List.foldl_cons]
      rw [ih (applyFailure cfg m z), applyFailure_enabled_of_thzero cfg h0]

/-- C2 witness: with threshold 2, a zone at fail_count 1 is disabled by the
failing cycle that brings the counter to 2. -/
theorem failure_escalation_witness : (applyFailure cfgA "oops" zFresh).is_enabled = false :=
  (failure_escalation cfgA "oops" zFresh []).2.2.1 (by decide) (by decide)

/-- C10: the effective per-zone gap and cap are always at least 1; a stored
0, null or missing value is replaced by the configured default (then clamped
to at least 1); and a stored daily_cap of 0 does not block posting: the cap
check still passes when no post was made today. -/
theorem limits_clamping (cfg : Config) (z : Zone) :
    1 ≤ effMinGap cfg z ∧ 1 ≤ effDailyCap cfg z ∧
    ((z.min_gap_minutes = none ∨ z.min_gap_minutes = some 0) →
      effMinGap cfg z = max 1 cfg.defaultMinGapMinutes) ∧
    ((z.daily_cap = none ∨ z.daily_cap = some 0) →
      effDailyCap cfg z = max 1 cfg.defaultDailyCap) ∧
    (z.daily_cap = some 0 → capOk cfg 0 z = true) := by
  refine ⟨le_max_left _ _, le_max_left _ _, ?_, ?_, ?_⟩
  · rintro (h | h) <;> simp [effMinGap, h]
  · rintro (h | h) <;> simp [effDailyCap, h]
  · intro h
    have h1 : 1 ≤ effDailyCap cfg z := le_max_left _ _
    unfold capOk
    rw [decide_eq_true_eq]
    omega

/-- C10 witness: a zone storing daily_cap 0 gets the clamped default cap and
passes the cap check with no posts today. -/
theorem limits_clamping_witness :
    effDailyCap cfgA { zSample with daily_cap := some 0 } = max 1 3 :=
  (limits_clamping cfgA { zSample with daily_cap := some 0 }).2.2.2.1 (Or.inr rfl)

/-- C6: for a quiet-hours string that parses as a pair (a, b), an hour is
quiet in the plain case a < b exactly when it lies in [a, b); in the
wrapped case a > b exactly when it is at or after a or before b; and in the
degenerate case a = b no hour is ever quiet. -/
theorem quiet_hours_window (s : String) (a b h : Nat)
    (hp : parseQuietHours s = some (a, b)) :
    (a < b → (inQuietHours s h = true ↔ a ≤ h ∧ h < b)) ∧
    (b < a → (inQuietHours s h = true ↔ a ≤ h ∨ h < b)) ∧
    (a = b → inQuietHours s h = false) := by
  have hne : s.isEmpty = false := by
    by_contra hc
    have he : s = "" := (String.isEmpty_iff s).mp (by
      cases hq : s.isEmpty
      · exact absurd hq hc
      · rfl)
    rw [he] at hp
    simp [parseQuietHours] at hp
  unfold inQuietHours
  rw [hne, hp]
  simp only [Bool.false_eq_true, if_false]
  refine ⟨?_, ?_, ?_⟩
  · intro hab
    rw [if_pos (le_of_lt hab)]
    simp
  · intro hba
    rw [if_neg (by omega)]
    simp
  · intro heq
    rw [if_pos (le_of_eq heq)]
    subst heq
    simp only [Bool.and_eq_false_iff]
    by_cases hh : a ≤ h
    · right; simp; omega
    · left; simp; omega

/-- C6 witness: the string 23-07 parses as the wrapped window (23, 7), and
hour 0 is quiet in it. -/
theorem quiet_hours_window_witness : inQuietHours "23-07" 0 = true :=
  ((quiet_hours_window "23-07" 23 7 0 (by decide)).2.1 (by decide)).mpr (by decide)

/-- C8 counterexample: with the malformed quiet-hours string 23:00-07:00
the regex fails, inQuietHours returns false, and the cycle proceeds: on an
eligible zone it sends a message and mutates the zone, so a malformed
quiet-hours string does not make the cycle a safe no-op. -/
theorem malformed_quiet_hours_sends :
    parseQuietHours "23:00-07:00" = none ∧
    (promoCycle cfgBad (0, zFresh) envA).2 = true ∧
    (promoCycle cfgBad (0, zFresh) envA).1.2 ≠ zFresh := by
  have hq : inQuietHours "23:00-07:00" 12 = false := by decide
  have hrun : promoCycle cfgBad (0, zFresh) envA
      = ((envA.now, applySuccess zFresh envA.now), true) := by
    unfold promoCycle
    norm_num [cfgBad, cfgA, envA, hq, postToZone, sendEligible, globalGapOk, zoneGapOk,
      capOk, effMinGap, effDailyCap, zFresh, pickWeighted, pickLoop, effWeight, tplB]
  refine ⟨by decide, by rw [hrun], ?_⟩
  rw [hrun]
  decide

/-- C8 (amended): a quiet-hours string that does not parse as HH-HH is
ignored, exactly as an unset quiet-hours setting: no hour is treated as
quiet and the cycle behaves as postToZone with no quiet gate. -/
theorem malformed_quiet_hours_ignored (s : String) (h : Nat) (cfg : Config)
    (st : Nat × Zone) (e : CycleEnv) (hp : parseQuietHours s = none) :
    inQuietHours s h = false ∧
    (cfg.quietHours = s → promoCycle cfg st e = postToZone cfg st e) := by
  have hall : ∀ h0 : Nat, inQuietHours s h0 = false := by
    intro h0
    unfold inQuietHours
    split
    · rfl
    · rw [hp]
  refine ⟨hall h, ?_⟩
  intro hq
  unfold promoCycle
  rw [hq, hall e.hour]
  simp

/-- C8 witness: the malformed string banana is never quiet. -/
theorem malformed_quiet_hours_ignored_witness : inQuietHours "banana" 3 = false :=
  (malformed_quiet_hours_ignored "banana" 3 cfgA (0, zFresh) envA (by decide)).1

/-- Every effective weight is nonnegative because of the clamp to 0. -/
theorem effWeight_nonneg (t : Template) : 0 ≤ effWeight t := le_max_left _ _

/-- Helper for C4: whenever the cumulative loop of pickWeighted is entered
with a positive draw not exceeding the sum of the listed weights, the item
it returns carries a positive weight. -/
theorem pickLoop_mem_pos (l : List (Template × ℚ)) :
    ∀ (r : ℚ) (t : Template), 0 < r → r ≤ (l.map Prod.snd).sum →
      pickLoop l r = some t → ∃ w, (t, w) ∈ l ∧ 0 < w := by
  induction l with
  | nil =>
    intro r t h1 h2 h3
    simp [pickLoop] at h3
  | cons p rest ih =>
    intro r t h1 h2 h3
    obtain ⟨t0, w0⟩ := p
    cases rest with
    | nil =>
      simp only [pickLoop, Option.some.injEq] at h3
      subst h3
      simp only [List.map_cons, List.map_nil, List.sum_cons, List.sum_nil, add_zero] at h2
      exact ⟨w0, by simp, by linarith⟩
    | cons q rest2 =>
      by_cases hc : r - w0 ≤ 0
      · have h3' : some t0 = some t := by rw [← h3]; simp [pickLoop, hc]
        obtain rfl := Option.some.inj h3'
        have hrw : r ≤ w0 := by linarith [sub_nonpos.mp hc]
        exact ⟨w0, by simp, by linarith⟩
      · have h3' : pickLoop (q :: rest2) (r - w0) = some t := by
          rw [← h3]; simp [pickLoop, hc]
        have hsum : r - w0 ≤ ((q :: rest2).map Prod.snd).sum := by
          simp only [List.map_cons, List.sum_cons] at h2 ⊢
          linarith
        obtain ⟨w, hw, hwpos⟩ := ih (r - w0) t (by linarith [not_le.mp hc]) hsum h3'
        exact ⟨w, List.mem_cons_of_mem _ hw, hwpos⟩

/-- C4: the default weight 1 applies exactly to missing weights while an
explicit 0 stays 0; when some listed item has positive effective weight the
selector only ever returns an item of positive effective weight (so
zero-weight items have zero selection probability for every draw in the
open unit interval); and when the total weight is nonpositive the uniform
fallback still returns some item of any nonempty list. -/
theorem weighted_selection (items : List Template) (r : ℚ) (t : Template)
    (h0 : 0 < r) (h1 : r < 1) :
    (∀ u : Template, u.weight = none → effWeight u = 1) ∧
    (∀ u : Template, u.weight = some 0 → effWeight u = 0) ∧
    ((∃ u ∈ items, 0 < effWeight u) → pickWeighted items r = some t → 0 < effWeight t) ∧
    (items ≠ [] → (items.map effWeight).sum ≤ 0 → (pickWeighted items r).isSome = true) := by
  refine ⟨?_, ?_, ?_, ?_⟩
  · intro u hu; simp [effWeight, hu]
  · intro u hu; simp [effWeight, hu]
  · rintro ⟨u, hu, hupos⟩ hpick
    have hnn : ∀ x ∈ items.map effWeight, (0:ℚ) ≤ x := by
      rintro x hx
      obtain ⟨v, hv, rfl⟩ := List.mem_map.mp hx
      exact effWeight_nonneg v
    have htot : 0 < (items.map effWeight).sum := by
      have hle : effWeight u ≤ (items.map effWeight).sum :=
        List.single_le_sum hnn _ (List.mem_map_of_mem _ hu)
      linarith
    have hne : items.isEmpty = false := by
      cases items with
      | nil => cases hu
      | cons a l => rfl
    unfold pickWeighted at hpick
    rw [hne] at hpick
    simp only [Bool.false_eq_true, if_false] at hpick
    rw [if_neg (not_le.mpr htot)] at hpick
    have hrt0 : 0 < r * (items.map effWeight).sum := mul_pos h0 htot
    have hmap : (items.map fun u => (u, effWeight u)).map Prod.snd = items.map effWeight := by
      rw [List.map_map]
      rfl
    have hrt1 : r * (items.map effWeight).sum
        ≤ ((items.map fun u => (u, effWeight u)).map Prod.snd).sum := by
      rw [hmap]
      exact mul_le_of_le_one_left (le_of_lt htot) (le_of_lt h1)
    obtain ⟨w, hw, hwpos⟩ := pickLoop_mem_pos _ _ t hrt0 hrt1 hpick
    obtain ⟨u2, hu2, heq⟩ := List.mem_map.mp hw
    obtain ⟨rfl, rfl⟩ := Prod.mk.inj heq
    exact hwpos
  · intro hne htot
    have hlen : 1 ≤ items.length := by
      cases items with
      | nil => exact absurd rfl hne
      | cons a l => simp
    have hEmpty : items.isEmpty = false := by
      cases items with
      | nil => exact absurd rfl hne
      | cons a l => rfl
    unfold pickWeighted
    rw [hEmpty]
    simp only [Bool.false_eq_true, if_false]
    rw [if_pos htot]
    have hidx : Int.toNat ⌊r * (items.length : ℚ)⌋ < items.length := by
      have hlt : ⌊r * (items.length : ℚ)⌋ < (items.length : ℤ) := by
        apply Int.floor_lt.mpr
        have hlpos : (0:ℚ) < items.length := by exact_mod_cast hlen
        have := mul_lt_mul_of_pos_right h1 hlpos
        rw [one_mul] at this
        push_cast
        exact this
      have hnneg : 0 ≤ ⌊r * (items.length : ℚ)⌋ :=
        Int.floor_nonneg.mpr (mul_nonneg (le_of_lt h0) (by positivity))
      omega
    rw [List.get?_eq_get hidx]
    rfl

/-- C4 witness: over a zero-weight item a and a weight-1 item b, the draw
one half selects b, whose effective weight is positive. -/
theorem weighted_selection_witness : 0 < effWeight tplB :=
  (weighted_selection [tplA, tplB] (1/2) tplB (by norm_num) (by norm_num)).2.2.1
    ⟨tplB, by simp, by norm_num [effWeight, tplB]⟩
    (by norm_num [pickWeighted, pickLoop, effWeight, tplA, tplB])

/-- The effective gap depends on the zone only through its stored
min_gap_minutes column. -/
theorem effMinGap_congr (cfg : Config) (z1 z2 : Zone)
    (h : z1.min_gap_minutes = z2.min_gap_minutes) : effMinGap cfg z1 = effMinGap cfg z2 := by
  unfold effMinGap
  rw [h]

/-- Case analysis of one promo cycle: a successful send turns the zone into
applySuccess of it and requires the eligibility gate to have passed; a cycle
without a successful send leaves last_posted_at untouched; and no cycle
changes the stored min_gap_minutes column. -/
theorem promoCycle_cases (cfg : Config) (st : Nat × Zone) (e : CycleEnv) :
    ((promoCycle cfg st e).2 = true →
      (promoCycle cfg st e).1.2 = applySuccess st.2 e.now ∧
      sendEligible cfg e.now st.1 e.todayCount st.2 = true) ∧
    ((promoCycle cfg st e).2 = false →
      (promoCycle cfg st e).1.2.last_posted_at = st.2.last_posted_at) ∧
    (promoCycle cfg st e).1.2.min_gap_minutes = st.2.min_gap_minutes := by
  obtain ⟨lg, z⟩ := st
  unfold promoCycle postToZone
  by_cases hq : inQuietHours cfg.quietHours e.hour = true
  · simp [hq]
  · simp only [hq, Bool.false_eq_true, if_false]
    by_cases he : sendEligible cfg e.now lg e.todayCount z = true
    · simp only [he, if_true]
      cases hp : pickWeighted e.templates e.rand with
      | none => simp
      | some tpl =>
        by_cases hs : e.sendOk = true
        · simp [hs, applySuccess]
        · simp only [hs, Bool.false_eq_true, if_false]
          refine ⟨by simp, ?_, ?_⟩ <;>
            · simp only [applyFailure]
              split <;> simp
    · simp [he]

/-- Helper for C3: once a zone records a last post at time t0, every
subsequent successful send in a run of cycles happens at or after t0 plus
the zone's effective gap in milliseconds. -/
theorem successTimes_lower (cfg : Config) :
    ∀ (es : List CycleEnv) (st : Nat × Zone) (t0 : Nat),
      st.2.last_posted_at = some t0 →
      ∀ x ∈ successTimes cfg st es, t0 + effMinGap cfg st.2 * 60000 ≤ x := by
  intro es
  induction es with
  | nil =>
    intro st t0 h x hx
    simp [successTimes] at hx
  | cons e rest ih =>
    intro st t0 h x hx
    have hmg := (promoCycle_cases cfg st e).2.2
    cases hs : (promoCycle cfg st e).2 with
    | true =>
      obtain ⟨hz, he⟩ := (promoCycle_cases cfg st e).1 hs
      simp only [successTimes, hs, if_true, List.mem_cons] at hx
      simp only [sendEligible, Bool.and_eq_true] at he
      obtain ⟨⟨⟨hen, hgl⟩, hzg⟩, hcap⟩ := he
      unfold zoneGapOk at hzg
      rw [h, decide_eq_true_eq] at hzg
      have hgap1 : 1 ≤ effMinGap cfg st.2 := le_max_left _ _
      have hstep : t0 + effMinGap cfg st.2 * 60000 ≤ e.now := by omega
      cases hx with
      | inl hx => omega
      | inr hx =>
        have hlast : (promoCycle cfg st e).1.2.last_posted_at = some e.now := by
          rw [hz]
          rfl
        have hge := ih (promoCycle cfg st e).1 e.now hlast x hx
        rw [effMinGap_congr cfg (promoCycle cfg st e).1.2 st.2 hmg] at hge
        omega
    | false =>
      simp only [successTimes, hs, Bool.false_eq_true, if_false] at hx
      have hlast : (promoCycle cfg st e).1.2.last_posted_at = some t0 := by
        rw [(promoCycle_cases cfg st e).2.1 hs, h]
      have hge := ih (promoCycle cfg st e).1 t0 hlast x hx
      rw [effMinGap_congr cfg (promoCycle cfg st e).1.2 st.2 hmg] at hge
      exact hge

/-- Helper for C3: consecutive successful sends in any run of cycles on a
zone are separated by at least the zone's effective gap in milliseconds. -/
theorem successTimes_chain (cfg : Config) :
    ∀ (es : List CycleEnv) (st : Nat × Zone),
      List.Chain' (fun a b => a + effMinGap cfg st.2 * 60000 ≤ b) (successTimes cfg st es) := by
  intro es
  induction es with
  | nil =>
    intro st
    simp [successTimes]
  | cons e rest ih =>
    intro st
    have hmg := (promoCycle_cases cfg st e).2.2
    have hcongr : effMinGap cfg (promoCycle cfg st e).1.2 = effMinGap cfg st.2 :=
      effMinGap_congr cfg _ _ hmg
    cases hs : (promoCycle cfg st e).2 with
    | false =>
      simp only [successTimes, hs, Bool.false_eq_true, if_false]
      rw [← hcongr]
      exact ih (promoCycle cfg st e).1
    | true =>
      simp only [successTimes, hs, if_true]
      apply List.chain'_cons'.mpr
      constructor
      · intro b hb
        have hm : b ∈ successTimes cfg (promoCycle cfg st e).1 rest :=
          List.mem_of_mem_head? hb
        have hlast : (promoCycle cfg st e).1.2.last_posted_at = some e.now := by
          rw [((promoCycle_cases cfg st e).1 hs).1]
          rfl
        have hge := successTimes_lower cfg rest (promoCycle cfg st e).1 e.now hlast b hm
        rw [hcongr] at hge
        omega
      · rw [← hcongr]
        exact ih (promoCycle cfg st e).1

/-- C3: each of the four gate conditions alone prevents a send attempt
(disabled zone, global gap not yet elapsed, per-zone gap not yet elapsed,
daily cap reached), and consequently, in any run of cycles, two successful
sends to a zone are never closer together than its effective minimum gap. -/
theorem eligibility_gate_and_min_gap (cfg : Config) (now lastGlobal todayCount : Nat)
    (z : Zone) (st : Nat × Zone) (es : List CycleEnv) :
    (z.is_enabled = false → sendEligible cfg now lastGlobal todayCount z = false) ∧
    (now - lastGlobal < cfg.globalMinGapSeconds * 1000 →
      sendEligible cfg now lastGlobal todayCount z = false) ∧
    (∀ last, z.last_posted_at = some last → now - last < effMinGap cfg z * 60000 →
      sendEligible cfg now lastGlobal todayCount z = false) ∧
    (effDailyCap cfg z ≤ todayCount → sendEligible cfg now lastGlobal todayCount z = false) ∧
    List.Chain' (fun a b => a + effMinGap cfg st.2 * 60000 ≤ b) (successTimes cfg st es) := by
  refine ⟨?_, ?_, ?_, ?_, successTimes_chain cfg es st⟩
  · intro h
    simp [sendEligible, h]
  · intro h
    unfold sendEligible globalGapOk
    rw [decide_eq_false (by omega)]
    simp
  · intro last hl h
    have hz : zoneGapOk cfg now z = false := by
      simp only [zoneGapOk, hl]
      rw [decide_eq_false]
      omega
    simp [sendEligible, hz]
  · intro h
    unfold sendEligible capOk
    rw [decide_eq_false (by omega)]
    simp

/-- C3 witness: a disabled zone fails the gate. -/
theorem eligibility_gate_witness :
    sendEligible cfgA 1000000000 0 0 { zFresh with is_enabled := false } = false :=
  (eligibility_gate_and_min_gap cfgA 1000000000 0 0 { zFresh with is_enabled := false }
    (0, zFresh) []).1 rfl

/-- Helper for C5: one scheduler transition preserves the invariant that at
most one cycle is in flight and that a next tick stays armed while the
process is not stopped. -/
theorem schedStep_inv (s : SchedState) (e : SchedEv)
    (h1 : s.inflight ≤ 1) (h2 : s.stopped = false → s.timerArmed = true) :
    (schedStep s e).inflight ≤ 1 ∧
    ((schedStep s e).stopped = false → (schedStep s e).timerArmed = true) := by
  obtain ⟨i, sk, st, ta, sp⟩ := s
  cases e <;> cases sp <;> cases ta <;> cases i <;> simp_all [schedStep]

/-- Helper for C5: a fire or finish event never sets the stopped flag. -/
theorem schedStep_stopped (s : SchedState) (e : SchedEv) :
    (schedStep s e).stopped = true → s.stopped = true ∨ e = SchedEv.stop := by
  obtain ⟨i, sk, st, ta, sp⟩ := s
  cases e <;> cases sp <;> cases ta <;> cases i <;> simp_all [schedStep]

/-- Helper for C5: the invariant holds after any event sequence from any
state satisfying it, and the stopped flag only ever originates from a stop
event. -/
theorem schedRun_inv (evs : List SchedEv) :
    ∀ s : SchedState, s.inflight ≤ 1 → (s.stopped = false → s.timerArmed = true) →
      (schedRun s evs).inflight ≤ 1 ∧
      ((schedRun s evs).stopped = false → (schedRun s evs).timerArmed = true) ∧
      ((schedRun s evs).stopped = true → s.stopped = true ∨ SchedEv.stop ∈ evs) := by
  induction evs with
  | nil =>
    intro s h1 h2
    exact ⟨h1, h2, fun h => Or.inl h⟩
  | cons e rest ih =>
    intro s h1 h2
    obtain ⟨g1, g2⟩ := schedStep_inv s e h1 h2
    obtain ⟨k1, k2, k3⟩ := ih (schedStep s e) g1 g2
    refine ⟨k1, k2, ?_⟩
    intro hstop
    cases k3 hstop with
    | inl h =>
      cases schedStep_stopped s e h with
      | inl h => exact Or.inl h
      | inr h => exact Or.inr (by rw [h]; exact List.mem_cons_self _ _)
    | inr h => exact Or.inr (List.mem_cons_of_mem _ h)

/-- C5: starting from the boot state, after any sequence of timer, cycle
completion and shutdown events at most one cycle is ever in flight; while
the process has not been told to stop, a next tick is always armed (the
loop reschedules itself and never terminates on its own); the stopped state
is reached only through the external stop signal; and a tick that fires
while a cycle is in flight changes nothing but the skipped counter: it
starts no cycle, queues nothing, and leaves the next timer armed. -/
theorem scheduler_single_flight (evs : List SchedEv) :
    (schedRun schedInit evs).inflight ≤ 1 ∧
    ((schedRun schedInit evs).stopped = false → (schedRun schedInit evs).timerArmed = true) ∧
    ((schedRun schedInit evs).stopped = true → SchedEv.stop ∈ evs) ∧
    (∀ s : SchedState, s.stopped = false → s.timerArmed = true → 0 < s.inflight →
      schedStep s SchedEv.fire = { s with skipped := s.skipped + 1 }) := by
  obtain ⟨k1, k2, k3⟩ := schedRun_inv evs schedInit (by decide) (by decide)
  refine ⟨k1, k2, ?_, ?_⟩
  · intro h
    cases k3 h with
    | inl h => simp [schedInit] at h
    | inr h => exact h
  · intro s hs ha hin
    obtain ⟨i, sk, st, ta, sp⟩ := s
    subst hs
    subst ha
    cases i with
    | zero => simp at hin
    | succ n => simp [schedStep]

/-- C5 witness: a tick firing while one cycle runs only bumps the skipped
counter. -/
theorem scheduler_single_flight_witness :
    schedStep
      { inflight := 1, skipped := 0, started := 1, timerArmed := true, stopped := false }
      SchedEv.fire
      = { inflight := 1, skipped := 1, started := 1, timerArmed := true, stopped := false } :=
  (scheduler_single_flight []).2.2.2 _ rfl rfl (by decide)

/-- C9 counterexample: when the primary promo_posts insert fails, the code
makes a second synchronous insert attempt (the minimal fallback payload)
within the same cycle, so a logging failure is in fact retried once
synchronously, contrary to the claim that it is never retried. -/
theorem log_fallback_retry :
    ((logPostAttempt { firstInsertFails := true, secondInsertFails := false }
      1 10 "t1" "L" "failed" (some "boom") []).2).length = 2 := by
  rfl

/-- C9 (amended): logPostAttempt makes at most two insert attempts: exactly
one when the primary insert succeeds, and exactly one additional synchronous
minimal fallback insert when the primary insert fails; it never throws, and
on the success path the zone update to last_posted_at happens regardless of
any logging failure (the send's effect on destination state is never
reversed). -/
theorem log_failure_nonblocking (env : DbEnv) (zoneId chatId : Nat)
    (templateId deepLink status : String) (err : Option String) (log : List PostRow)
    (z : Zone) (now : Nat) :
    (logPostAttempt env zoneId chatId templateId deepLink status err log).2.length ≤ 2 ∧
    (env.firstInsertFails = false →
      (logPostAttempt env zoneId chatId templateId deepLink status err log).2.length = 1) ∧
    (env.firstInsertFails = true →
      (logPostAttempt env zoneId chatId templateId deepLink status err log).2 =
        [PostRow.full zoneId chatId templateId deepLink status (err.map (String.take · 800)),
         PostRow.minimal zoneId templateId status (err.map (String.take · 800))]) ∧
    (recordSuccess env z now templateId deepLink log).2 = applySuccess z now ∧
    (recordSuccess env z now templateId deepLink log).2.last_posted_at = some now := by
  obtain ⟨f1, f2⟩ := env
  cases f1 <;> cases f2 <;> simp [logPostAttempt, recordSuccess, applySuccess]

/-- C9 witness: with both inserts succeeding, exactly one insert call is
made. -/
theorem log_failure_nonblocking_witness :
    (logPostAttempt { firstInsertFails := false, secondInsertFails := false }
      1 10 "t1" "L" "success" none []).2.length = 1 :=
  (log_failure_nonblocking { firstInsertFails := false, secondInsertFails := false }
    1 10 "t1" "L" "success" none [] zFresh 5).2.1 rfl

namespace V2

/-- The fuel argument of the base-36 expansion is irrelevant once it
exceeds the number being expanded. -/
theorem toB36Aux_fuel (n : Nat) : ∀ f1 f2 : Nat, n < f1 → n < f2 →
    toB36Aux f1 n = toB36Aux f2 n := by
  induction n using Nat.strong_induction_on with
  | _ n ih =>
    intro f1 f2 h1 h2
    obtain ⟨g1, rfl⟩ : ∃ g, f1 = g + 1 := ⟨f1 - 1, by omega⟩
    obtain ⟨g2, rfl⟩ : ∃ g, f2 = g + 1 := ⟨f2 - 1, by omega⟩
    simp only [toB36Aux]
    by_cases hn : n < 36
    · simp [hn]
    · simp only [hn, if_false]
      have hd : n / 36 < n := Nat.div_lt_self (by omega) (by omega)
      rw [ih (n / 36) hd g1 g2 (by omega) (by omega)]

/-- Unfolding equation of the base-36 expansion. -/
theorem toBase36_eq (n : Nat) :
    toBase36 n = if n < 36 then [digitB36 n]
      else toBase36 (n / 36) ++ [digitB36 (n % 36)] := by
  by_cases hn : n < 36
  · rw [if_pos hn]
    unfold toBase36
    simp [toB36Aux, hn]
  · rw [if_neg hn]
    have hd : n / 36 < n := Nat.div_lt_self (by omega) (by omega)
    show toB36Aux (n + 1) n = toB36Aux (n / 36 + 1) (n / 36) ++ [digitB36 (n % 36)]
    rw [show toB36Aux (n + 1) n = toB36Aux n (n / 36) ++ [digitB36 (n % 36)] from by
      simp [toB36Aux, hn]]
    rw [toB36Aux_fuel (n / 36) n (n / 36 + 1) hd (Nat.lt_succ_self _)]

/-- The fuel argument of the base-10 expansion is irrelevant once it
exceeds the number being expanded. -/
theorem toB10Aux_fuel (n : Nat) : ∀ f1 f2 : Nat, n < f1 → n < f2 →
    toB10Aux f1 n = toB10Aux f2 n := by
  induction n using Nat.strong_induction_on with
  | _ n ih =>
    intro f1 f2 h1 h2
    obtain ⟨g1, rfl⟩ : ∃ g, f1 = g + 1 := ⟨f1 - 1, by omega⟩
    obtain ⟨g2, rfl⟩ : ∃ g, f2 = g + 1 := ⟨f2 - 1, by omega⟩
    simp only [toB10Aux]
    by_cases hn : n < 10
    · simp [hn]
    · simp only [hn, if_false]
      have hd : n / 10 < n := Nat.div_lt_self (by omega) (by omega)
      rw [ih (n / 10) hd g1 g2 (by omega) (by omega)]

/-- Unfolding equation of the base-10 expansion. -/
theorem toBase10_eq (n : Nat) :
    toBase10 n = if n < 10 then [digitB36 n]
      else toBase10 (n / 10) ++ [digitB36 (n % 10)] := by
  by_cases hn : n < 10
  · rw [if_pos hn]
    unfold toBase10
    simp [toB10Aux, hn]
  · rw [if_neg hn]
    have hd : n / 10 < n := Nat.div_lt_self (by omega) (by omega)
    show toB10Aux (n + 1) n = toB10Aux (n / 10 + 1) (n / 10) ++ [digitB36 (n % 10)]
    rw [show toB10Aux (n + 1) n = toB10Aux n (n / 10) ++ [digitB36 (n % 10)] from by
      simp [toB10Aux, hn]]
    rw [toB10Aux_fuel (n / 10) n (n / 10 + 1) hd (Nat.lt_succ_self _)]

/-- Base-36 digit characters are strictly increasing in the digit value. -/
theorem digitB36_mono : ∀ a < 36, ∀ b < 36, a < b → digitB36 a < digitB36 b := by decide

/-- Every base-36 digit character is identifier safe. -/
theorem isIdent_digitB36 : ∀ a < 36, isIdentChar (digitB36 a) = true := by decide

/-- All characters of a base-36 expansion are identifier safe. -/
theorem toBase36_chars (n : Nat) : ∀ c ∈ toBase36 n, isIdentChar c = true := by
  induction n using Nat.strong_induction_on with
  | _ n ih =>
    intro c hc
    rw [toBase36_eq] at hc
    by_cases hn : n < 36
    · rw [if_pos hn] at hc
      simp only [List.mem_singleton] at hc
      subst hc
      exact isIdent_digitB36 n hn
    · rw [if_neg hn] at hc
      rcases List.mem_append.mp hc with h | h
      · exact ih (n / 36) (Nat.div_lt_self (by omega) (by omega)) c h
      · simp only [List.mem_singleton] at h
        subst h
        exact isIdent_digitB36 _ (Nat.mod_lt _ (by omega))

/-- All characters of a base-10 expansion are identifier safe. -/
theorem toBase10_chars (n : Nat) : ∀ c ∈ toBase10 n, isIdentChar c = true := by
  induction n using Nat.strong_induction_on with
  | _ n ih =>
    intro c hc
    rw [toBase10_eq] at hc
    by_cases hn : n < 10
    · rw [if_pos hn] at hc
      simp only [List.mem_singleton] at hc
      subst hc
      exact isIdent_digitB36 n (by omega)
    · rw [if_neg hn] at hc
      rcases List.mem_append.mp hc with h | h
      · exact ih (n / 10) (Nat.div_lt_self (by omega) (by omega)) c h
      · simp only [List.mem_singleton] at h
        subst h
        exact isIdent_digitB36 _ (by have := Nat.mod_lt n (show 0 < 10 by omega); omega)

/-- All characters of the sanitized template-id fragment are identifier
safe. -/
theorem tplIdChars_chars (tid : String) : ∀ c ∈ tplIdChars tid, isIdentChar c = true := by
  have key : ∀ base : List Char, ∀ c,
      c ∈ (if ((base.filter isIdentChar).take 10).isEmpty = true then ['t']
        else (base.filter isIdentChar).take 10) → isIdentChar c = true := by
    intro base c hc
    split at hc
    · simp only [List.mem_singleton] at hc
      subst hc
      decide
    · have hf := List.take_subset 10 _ hc
      exact (List.mem_filter.mp hf).2
  intro c hc
  simp only [tplIdChars] at hc
  exact key _ c hc

/-- All characters of the time suffix are identifier safe. -/
theorem tsSuffix_chars (n : Nat) : ∀ c ∈ tsSuffix n, isIdentChar c = true := by
  intro c hc
  simp only [tsSuffix] at hc
  exact toBase36_chars n c (List.drop_subset _ _ hc)

/-- Appending one digit commutes with the digit-list construction. -/
theorem digitsM_succ (k : Nat) : ∀ n, digitsM (k + 1) n = digitsM k (n / 36) ++ [n % 36] := by
  induction k with
  | zero =>
    intro n
    simp [digitsM]
  | succ k ih =>
    intro n
    have hhead : n / 36 ^ (k + 1) = n / 36 / 36 ^ k := by
      rw [Nat.div_div_eq_div_mul, ← pow_succ']
    calc digitsM (k + 2) n = (n / 36 ^ (k + 1) % 36) :: digitsM (k + 1) n := rfl
    _ = (n / 36 ^ (k + 1) % 36) :: (digitsM k (n / 36) ++ [n % 36]) := by rw [ih n]
    _ = ((n / 36 / 36 ^ k % 36) :: digitsM k (n / 36)) ++ [n % 36] := by
        rw [hhead, List.cons_append]
    _ = digitsM (k + 1) (n / 36) ++ [n % 36] := rfl

/-- The last k digits of a number depend only on the number modulo 36^k. -/
theorem digitsM_mod (k : Nat) : ∀ n, digitsM k n = digitsM k (n % 36 ^ k) := by
  induction k with
  | zero =>
    intro n
    simp [digitsM]
  | succ k ih =>
    intro n
    rw [digitsM_succ, digitsM_succ]
    have h1 : n % 36 ^ (k + 1) % 36 = n % 36 :=
      Nat.mod_mod_of_dvd n (dvd_pow_self 36 (Nat.succ_ne_zero k))
    have h2 : n % 36 ^ (k + 1) / 36 = n / 36 % 36 ^ k := by
      rw [pow_succ']
      exact Nat.mod_mul_right_div_self n 36 (36 ^ k)
    rw [h1, h2, ← ih (n / 36)]

/-- The tail of the base-36 expansion of a big enough number consists of
its last digits: dropping all but k+1 characters leaves exactly the digit
characters of the last k+1 digits. -/
theorem last_digits : ∀ (k n : Nat), 36 ^ k ≤ n →
    (toBase36 n).drop ((toBase36 n).length - (k + 1)) = (digitsM (k + 1) n).map digitB36 := by
  intro k
  induction k with
  | zero =>
    intro n h
    rw [toBase36_eq]
    by_cases hn : n < 36
    · rw [if_pos hn]
      simp [digitsM, Nat.mod_eq_of_lt hn]
    · rw [if_neg hn]
      rw [List.length_append, List.length_singleton, Nat.add_sub_cancel, List.drop_left]
      simp [digitsM]
  | succ k ih =>
    intro n h
    have h36 : ¬ n < 36 := by
      have h1 : (36:Nat) ^ 1 ≤ 36 ^ (k + 1) := Nat.pow_le_pow_right (by omega) (by omega)
      simp only [pow_one] at h1
      omega
    rw [toBase36_eq, if_neg h36]
    have hdiv : 36 ^ k ≤ n / 36 := by
      rw [Nat.le_div_iff_mul_le (show 0 < 36 by omega)]
      calc 36 ^ k * 36 = 36 ^ (k + 1) := (pow_succ 36 k).symm
      _ ≤ n := h
    rw [List.length_append, List.length_singleton]
    have hL : (toBase36 (n / 36)).length + 1 - (k + 1 + 1)
        = (toBase36 (n / 36)).length - (k + 1) := by omega
    rw [hL, List.drop_append_eq_append_drop]
    have h0 : (toBase36 (n / 36)).length - (k + 1) - (toBase36 (n / 36)).length = 0 := by
      omega
    rw [h0, List.drop_zero, ih (n / 36) hdiv, digitsM_succ (k + 1) n, List.map_append]
    rfl

/-- Fixed-width base-36 digit lists, mapped to characters, are
lexicographically strictly monotone in the number. -/
theorem digitsM_lex : ∀ k a b : Nat, a < b → b < 36 ^ k →
    List.Lex (fun x y : Char => x < y)
      ((digitsM k a).map digitB36) ((digitsM k b).map digitB36) := by
  intro k
  induction k with
  | zero =>
    intro a b hab hb
    simp only [pow_zero] at hb
    omega
  | succ k ih =>
    intro a b hab hb
    have hpow : 0 < 36 ^ k := pow_pos (by omega) k
    have ha' : a < 36 ^ (k + 1) := lt_trans hab hb
    have hda : a / 36 ^ k < 36 := by
      rw [Nat.div_lt_iff_lt_mul hpow]
      calc a < 36 ^ (k + 1) := ha'
      _ = 36 * 36 ^ k := by rw [pow_succ']
    have hdb : b / 36 ^ k < 36 := by
      rw [Nat.div_lt_iff_lt_mul hpow]
      calc b < 36 ^ (k + 1) := hb
      _ = 36 * 36 ^ k := by rw [pow_succ']
    simp only [digitsM, List.map_cons]
    rw [Nat.mod_eq_of_lt hda, Nat.mod_eq_of_lt hdb]
    rcases Nat.lt_trichotomy (a / 36 ^ k) (b / 36 ^ k) with hlt | heq | hgt
    · exact List.Lex.rel (digitB36_mono _ hda _ hdb hlt)
    · rw [heq]
      apply List.Lex.cons
      rw [digitsM_mod k a, digitsM_mod k b]
      have hA := Nat.div_add_mod a (36 ^ k)
      have hB := Nat.div_add_mod b (36 ^ k)
      rw [heq] at hA
      have hmod : a % 36 ^ k < b % 36 ^ k := by
        generalize hW : 36 ^ k * (b / 36 ^ k) = W at hA hB
        omega
      exact ih (a % 36 ^ k) (b % 36 ^ k) hmod (Nat.mod_lt _ hpow)
    · exfalso
      have hle : a / 36 ^ k ≤ b / 36 ^ k := Nat.div_le_div_right (le_of_lt hab)
      omega

/-- A lexicographically smaller character list is distinct. -/
theorem lex_ne (l1 l2 : List Char)
    (h : List.Lex (fun x y : Char => x < y) l1 l2) : l1 ≠ l2 := by
  induction h with
  | nil => simp
  | cons h ih =>
    intro hc
    injection hc with h1 h2
    exact ih h2
  | rel hr =>
    intro hc
    injection hc with h1 h2
    exact absurd h1 (ne_of_lt hr)

/-- C7: the deep-link token is at most 64 characters for every zone id and
template id, however long; every character of it is identifier safe; the
over-long case is handled by deterministic truncation (when the untruncated
payload already fits, the token is exactly that payload and ends in the
time suffix); and the six-character time suffix varies strictly
monotonically (in lexicographic order) with the send time within each
36^6-millisecond window, so it differs between cycles. -/
theorem deep_link_token (zoneId now t2 : Nat) (templateId : String) :
    (payloadChars zoneId templateId now).length ≤ 64 ∧
    (∀ c ∈ payloadChars zoneId templateId now, isIdentChar c = true) ∧
    ((rawPayloadChars zoneId templateId now).length ≤ 64 →
      payloadChars zoneId templateId now = rawPayloadChars zoneId templateId now ∧
      tsSuffix now <:+ payloadChars zoneId templateId now) ∧
    (36 ^ 5 ≤ now → 36 ^ 5 ≤ t2 → now / 36 ^ 6 = t2 / 36 ^ 6 → now < t2 →
      List.Lex (fun x y : Char => x < y) (tsSuffix now) (tsSuffix t2) ∧
      tsSuffix now ≠ tsSuffix t2) := by
  refine ⟨?_, ?_, ?_, ?_⟩
  · unfold payloadChars
    rw [List.length_take]
    exact min_le_left _ _
  · intro c hc
    have hr : c ∈ rawPayloadChars zoneId templateId now := List.take_subset _ _ hc
    unfold rawPayloadChars at hr
    rcases List.mem_cons.mp hr with rfl | hr
    · decide
    rcases List.mem_append.mp hr with hr | hr
    · rcases List.mem_append.mp hr with hr | hr
      · exact toBase10_chars zoneId c hr
      rcases List.mem_cons.mp hr with rfl | hr
      · decide
      · exact tplIdChars_chars templateId c hr
    · rcases List.mem_cons.mp hr with rfl | hr
      · decide
      · exact tsSuffix_chars now c hr
  · intro hfit
    have heq : payloadChars zoneId templateId now = rawPayloadChars zoneId templateId now :=
      List.take_of_length_le hfit
    refine ⟨heq, ?_⟩
    rw [heq]
    refine ⟨'p' :: toBase10 zoneId ++ 't' :: tplIdChars templateId ++ ['_'], ?_⟩
    simp [rawPayloadChars]
  · intro h1 h2 hwin hlt
    have hsfx : ∀ m : Nat, 36 ^ 5 ≤ m →
        tsSuffix m = (digitsM 6 (m % 36 ^ 6)).map digitB36 := by
      intro m hm
      have := last_digits 5 m hm
      simp only [tsSuffix]
      rw [this, ← digitsM_mod]
    have hmod : now % 36 ^ 6 < t2 % 36 ^ 6 := by
      have hA := Nat.div_add_mod now (36 ^ 6)
      have hB := Nat.div_add_mod t2 (36 ^ 6)
      rw [hwin] at hA
      generalize hW : 36 ^ 6 * (t2 / 36 ^ 6) = W at hA hB
      omega
    have hlex : List.Lex (fun x y : Char => x < y) (tsSuffix now) (tsSuffix t2) := by
      rw [hsfx now h1, hsfx t2 h2]
      exact digitsM_lex 6 (now % 36 ^ 6) (t2 % 36 ^ 6) hmod
        (Nat.mod_lt _ (pow_pos (by omega) 6))
    exact ⟨hlex, lex_ne _ _ hlex⟩

/-- C7 witness: at the smallest six-digit time and one millisecond later,
the suffixes compare strictly and the token facts hold concretely. -/
theorem deep_link_token_witness :
    List.Lex (fun x y : Char => x < y) (tsSuffix 60466176) (tsSuffix 60466177) :=
  ((deep_link_token 7 60466176 60466177 "soft_1").2.2.2
    (by norm_num) (by norm_num) (by norm_num) (by norm_num)).1

end V2

end JigPromo
